import Mathlib

/-!
# convenient.h: chunked arena allocator and string views

A shallow embedding of `src/convenient.h`.

* A `con_chunk*` is an `Option Nat`: `none` is `NULL`, `some i` designates the
  `i`-th chunk record handed out by `calloc` (`Machine.chunks`).
* A `u8*` / `char*` / `void*` is a `Nat` address, `0` is `NULL`; pointer
  arithmetic is addition on `Nat` (addresses do not wrap).
* `u32` values are `Nat`s below `2 ^ 32`; where the C arithmetic can wrap the
  reduction `% 2 ^ 32` is written out.  The `s32` conversion is `to_s32`.
* The system allocator is an oracle: `Machine.sys` lists the answers of the
  coming `calloc` calls (`0` is a failed call; an exhausted list also fails).
* `assert` is not defined by the header; whether it is compiled in is the
  parameter `ndebug` (`NDEBUG`), and `_DEBUG` is the parameter `debug`.
* Loops walk a chain that may be cyclic in an arbitrary memory, so they take
  fuel; running out of fuel is reported as `Stop.out_of_fuel`.
-/

namespace Convenient

/-! ## Data model -/

/-- The record `con_chunk` (lines 13-19). -/
structure con_chunk where
  next : Option Nat
  capacity : Nat
  buffer : Nat
  new_object_pointer : Nat
deriving DecidableEq, Repr

/-- The record `con_arena` (lines 21-26). -/
structure con_arena where
  chunk_default_size : Nat
  head : Option Nat
  current : Option Nat
deriving DecidableEq, Repr

/-- The record `con_string` (lines 35-40). -/
structure con_string where
  data : Nat
  size : Nat
  capacity : Nat
deriving DecidableEq, Repr

/-- The memory one call works on.  `heap` is the arena the argument `heap`
points to (`none` when the argument is `NULL`), `chunks` the chunk records
obtained from `calloc` so far, `sys` the answers of the coming `calloc` calls,
`freed` the non-null addresses passed to `free` in order, and `heap_freed`
records that the arena itself was passed to `free`. -/
structure Machine where
  heap : Option con_arena
  chunks : List con_chunk
  sys : List Nat
  freed : List Nat
  heap_freed : Bool
deriving DecidableEq, Repr

/-- Why a call did not return. -/
inductive Stop where
  | null_dereference
  | wild_pointer
  | assertion_failed
  | out_of_fuel
deriving DecidableEq, Repr

/-- What a call does: it returns a value in a new memory, or it stops. -/
inductive Outcome (α : Type) where
  | returned (m : Machine) (value : α)
  | stopped (why : Stop)
deriving DecidableEq, Repr

/-- The modulus of `u32` arithmetic. -/
def u32_mod : Nat := 2 ^ 32

/-- Conversion of an integer to `s32` (two's complement wrap). -/
def to_s32 (x : Int) : Int := (x + 2 ^ 31) % 2 ^ 32 - 2 ^ 31

/-! ## System calls and memory access -/

/-- One call `calloc(n, size)`: the next answer of the system, `0` on failure. -/
def calloc (m : Machine) : Nat × Machine :=
  match m.sys with
  | [] => (0, m)
  | a :: rest => (a, { m with sys := rest })

/-- The call `(con_chunk*)calloc(1, sizeof (con_chunk))`: on success a zeroed
record is added to the memory and its pointer returned. -/
def calloc_chunk (m : Machine) : Option Nat × Machine :=
  if (calloc m).1 = 0 then (none, (calloc m).2)
  else (some (calloc m).2.chunks.length,
        { (calloc m).2 with chunks := (calloc m).2.chunks ++ [⟨none, 0, 0, 0⟩] })

/-- The call `free(p)`. -/
def free (m : Machine) (p : Nat) : Machine :=
  if p = 0 then m else { m with freed := m.freed ++ [p] }

/-- Reading the record behind a `con_chunk*`. -/
def load (m : Machine) : Option Nat → Except Stop con_chunk
  | none => .error .null_dereference
  | some i =>
    match m.chunks[i]? with
    | none => .error .wild_pointer
    | some c => .ok c

/-- Writing the record behind a `con_chunk*` that was read before. -/
def store (m : Machine) (p : Option Nat) (c : con_chunk) : Machine :=
  match p with
  | none => m
  | some i => { m with chunks := m.chunks.set i c }

/-! ## Arena -/

/-- The constant `XY_INITIALHEAPCHUNKSIZE` (line 63). -/
def XY_INITIALHEAPCHUNKSIZE : Nat := 1024 * 1024

/-- The function `con_arena_setup` (lines 65-78); `debug` is `_DEBUG`. -/
def con_arena_setup (debug : Bool) (m : Machine) (size : Nat) : Machine :=
  match m.heap with
  | none => m
  | some _ =>
    let chunk_default_size :=
      if size > XY_INITIALHEAPCHUNKSIZE then size else XY_INITIALHEAPCHUNKSIZE
    let chunk_default_size :=
      if debug then (if size ≠ 0 then size else XY_INITIALHEAPCHUNKSIZE)
      else chunk_default_size
    { m with heap := some ⟨chunk_default_size, none, none⟩ }

/-- The loop of `con_arena_teardown` (lines 86-91), entered with `p`. -/
def teardown_walk : Nat → Machine → Option Nat → Outcome Unit
  | 0, _, _ => .stopped .out_of_fuel
  | fuel + 1, m, p =>
    match load m p with
    | .error e => .stopped e
    | .ok c =>
      match c.next with
      | none => .returned m ()
      | some pmem => teardown_walk fuel (free m c.buffer) (some pmem)

/-- The function `con_arena_teardown` (lines 80-92). -/
def con_arena_teardown (fuel : Nat) (m : Machine) : Outcome Unit :=
  match m.heap with
  | none => .returned m ()
  | some heap => teardown_walk fuel m heap.head

/-- The scan of `con_arena_push_` (lines 118-130), entered with
`heap->current`.  It returns `need_new_chunk` and the final `heap->current`;
the chunk records are not written during the scan. -/
def push_scan (ndebug : Bool) (m : Machine) (object_size : Nat) :
    Nat → Option Nat → Except Stop (Bool × Option Nat)
  | 0, _ => .error .out_of_fuel
  | fuel + 1, current =>
    match load m current with
    | .error e => .error e
    | .ok c =>
      let chunk_capacity_remaining : Int :=
        to_s32 ((c.capacity : Int) - ((c.new_object_pointer : Int) - (c.buffer : Int)))
      if ndebug = false ∧ ¬ (chunk_capacity_remaining > -1) then .error .assertion_failed
      else if object_size < c.capacity then .ok (false, current)
      else
        match load m c.next with
        | .error e => .error e
        | .ok c1 =>
          match c1.next with
          | none => .ok (true, c.next)
          | some _ => push_scan ndebug m object_size fuel c.next

/-- The size of a new chunk (lines 110 and 137). -/
def block_size (heap : con_arena) (object_size : Nat) : Nat :=
  if heap.chunk_default_size > object_size then heap.chunk_default_size else object_size

/-- The end of `con_arena_push_` (lines 144-146). -/
def push_bump (m : Machine) (object_size : Nat) : Outcome Nat :=
  match m.heap with
  | none => .stopped .null_dereference
  | some heap =>
    match load m heap.current with
    | .error e => .stopped e
    | .ok c =>
      .returned
        (store m heap.current
          { c with new_object_pointer := c.new_object_pointer + object_size })
        c.new_object_pointer

/-- Filling in a new chunk (lines 111-113 and 138-140) behind the pointer `p`,
then the end of the function. -/
def push_fill (m : Machine) (heap : con_arena) (p : Option Nat) (object_size : Nat) :
    Outcome Nat :=
  match load (calloc m).2 p with
  | .error e => .stopped e
  | .ok c =>
    push_bump
      { store (calloc m).2 p
          { c with buffer := (calloc m).1,
                   capacity := block_size heap object_size,
                   new_object_pointer := (calloc m).1 } with heap := some heap }
      object_size

/-- The function `con_arena_push_` (lines 94-147); `ndebug` is `NDEBUG`. -/
def con_arena_push_ (ndebug : Bool) (fuel : Nat) (m : Machine) (object_size : Nat) :
    Outcome Nat :=
  match m.heap with
  | none => .returned m 0
  | some heap =>
    if object_size < 1 then .returned m 0
    else
      match heap.head with
      | none =>
        match (calloc_chunk m).1 with
        | none =>
          .returned
            { (calloc_chunk m).2 with
                heap := some { heap with head := none, current := none },
                heap_freed := true } 0
        | some i =>
          push_fill (calloc_chunk m).2 { heap with head := some i, current := some i }
            (some i) object_size
      | some _ =>
        match push_scan ndebug m object_size fuel heap.current with
        | .error e => .stopped e
        | .ok (need_new_chunk, current) =>
          if need_new_chunk then
            match load (calloc_chunk m).2 current with
            | .error e => .stopped e
            | .ok c =>
              push_fill (store (calloc_chunk m).2 current { c with next := (calloc_chunk m).1 })
                { heap with current := (calloc_chunk m).1 } (calloc_chunk m).1 object_size
          else push_bump { m with heap := some { heap with current := current } } object_size

/-- The loop of `con_arena_reset` (lines 158-163), entered with `p`. -/
def reset_walk : Nat → Machine → Option Nat → Outcome Unit
  | 0, _, _ => .stopped .out_of_fuel
  | fuel + 1, m, p =>
    match load m p with
    | .error e => .stopped e
    | .ok c =>
      match load (store m p { c with new_object_pointer := c.buffer }) c.next with
      | .error e => .stopped e
      | .ok c1 =>
        match c1.next with
        | none => .returned (store m p { c with new_object_pointer := c.buffer }) ()
        | some _ =>
          reset_walk fuel (store m p { c with new_object_pointer := c.buffer }) c.next

/-- The function `con_arena_reset` (lines 149-166). -/
def con_arena_reset (fuel : Nat) (m : Machine) : Outcome Unit :=
  match m.heap with
  | none => .stopped .null_dereference
  | some heap =>
    match heap.head with
    | none => .returned m ()
    | some _ =>
      match reset_walk fuel m heap.head with
      | .stopped e => .stopped e
      | .returned m1 _ =>
        .returned { m1 with heap := some { heap with current := heap.head } } ()

/-- A client making the calls `con_arena_push_(heap, s)` for the sizes `s` of a
list in order; it returns the pointers obtained. -/
def push_all (ndebug : Bool) (fuel : Nat) : Machine → List Nat → Outcome (List Nat)
  | m, [] => .returned m []
  | m, s :: rest =>
    match con_arena_push_ ndebug fuel m s with
    | .stopped e => .stopped e
    | .returned m1 p =>
      match push_all ndebug fuel m1 rest with
      | .stopped e => .stopped e
      | .returned m2 ps => .returned m2 (p :: ps)

/-- The start addresses of consecutive regions of the given sizes, the first
one at `base`. -/
def region_starts (base : Nat) : List Nat → List Nat
  | [] => []
  | s :: rest => base :: region_starts (base + s) rest

/-! ## Strings -/

/-- The function `con_string_part` (lines 228-233); `start - size` and the
subtraction from `string.size` are `u32` arithmetic. -/
def con_string_part (string : con_string) (start size : Nat) : con_string :=
  { string with
      data := string.data + start,
      size := (string.size + u32_mod - (start + u32_mod - size) % u32_mod) % u32_mod }

/-- The value of a `char` that holds the byte `b`.  Whether plain `char` is
signed is left to the platform; `char_signed` says so. -/
def char_of_byte (char_signed : Bool) (b : Nat) : Int :=
  if char_signed = true ∧ 128 ≤ b % 256 then (b % 256 : Int) - 256 else (b % 256 : Int)

/-- The function `is_white_space` (lines 175-178) on the value of its `char`
argument; the character constants are written as their ASCII codes. -/
def is_white_space (c : Int) : Bool :=
  c == 32 || c == 9 || c == 10 || c == 13 || c == 11 || c == 12 ||
    c == 0xEF || c == 0xBB || c == 0xBF

/-- The library function `strlen`: the number of bytes before the first zero
byte from address `p` on, in the byte memory `mem`. -/
def strlen (mem : Nat → Nat) : Nat → Nat → Option Nat
  | 0, _ => none
  | fuel + 1, p =>
    if mem p % 256 = 0 then some 0
    else
      match strlen mem fuel (p + 1) with
      | none => none
      | some n => some (n + 1)

/-- The function `con_string_from_nts` (lines 183-189); the `size_t` result of
`strlen` is converted to `u32`. -/
def con_string_from_nts (mem : Nat → Nat) (fuel : Nat) (nts_string : Nat) :
    Option con_string :=
  match strlen mem fuel nts_string with
  | none => none
  | some n => some ⟨nts_string, n % u32_mod, n % u32_mod⟩

/-- The function `con_string_to_nts` (lines 191-196): the byte memory after the
call and the pointer returned. -/
def con_string_to_nts (mem : Nat → Nat) (string : con_string) : (Nat → Nat) × Nat :=
  (Function.update mem (string.data + string.size) 0, string.data)

/-- The function `con_string_skip_white_space` (lines 198-213); the decrements
of `capacity` and `size` are `u32` arithmetic.  The byte memory is only read. -/
def con_string_skip_white_space (char_signed : Bool) (mem : Nat → Nat) :
    Nat → con_string → Option con_string
  | 0, _ => none
  | fuel + 1, string =>
    if is_white_space (char_of_byte char_signed (mem string.data)) = true then
      con_string_skip_white_space char_signed mem fuel
        { data := string.data + 1,
          capacity := (string.capacity + u32_mod - 1) % u32_mod,
          size := (string.size + u32_mod - 1) % u32_mod }
    else some string

/-- The loop of `con_string_match` (lines 220-224), entered with the index `i`. -/
def match_loop (char_signed : Bool) (mem : Nat → Nat) (string_a string_b : con_string) :
    Nat → Nat → Option Int
  | 0, _ => none
  | fuel + 1, i =>
    if i < string_a.size then
      if char_of_byte char_signed (mem (string_a.data + i)) ≠
          char_of_byte char_signed (mem (string_b.data + i)) then some 2
      else match_loop char_signed mem string_a string_b fuel ((i + 1) % u32_mod)
    else some 0

/-- The function `con_string_match` (lines 215-226). -/
def con_string_match (char_signed : Bool) (mem : Nat → Nat) (fuel : Nat)
    (string_a string_b : con_string) : Option Int :=
  if string_a.size ≠ string_b.size then some 1
  else match_loop char_signed mem string_a string_b fuel 0

/-! ## Notions of the specification -/

/-- The six ASCII whitespace bytes: space, tab, newline, carriage return,
vertical tab, form feed. -/
def ascii_white_space (b : Nat) : Bool :=
  b == 32 || b == 9 || b == 10 || b == 13 || b == 11 || b == 12

/-- The whitespace bytes of the specification: the ASCII ones and the three
octets EF, BB, BF of the UTF-8 byte-order mark. -/
def spec_white_space (b : Nat) : Bool :=
  ascii_white_space b || b == 0xEF || b == 0xBB || b == 0xBF

/-- The arena has at most one chunk: no head, or head and current are the same
chunk and it has no successor. -/
def at_most_one_chunk (m : Machine) : Prop :=
  ∃ heap, m.heap = some heap ∧
    ((heap.head = none ∧ heap.current = none) ∨
     ∃ k c, heap.head = some k ∧ heap.current = some k ∧ m.chunks[k]? = some c ∧ c.next = none)

/-- The arena states reached from `con_arena_setup` on a non-null arena by calls
of `con_arena_push_` that return. -/
inductive Reachable (ndebug : Bool) : Machine → Prop where
  | setup (debug : Bool) (m : Machine) (size : Nat) (h : m.heap ≠ none) :
      Reachable ndebug (con_arena_setup debug m size)
  | push (fuel : Nat) (m m1 : Machine) (object_size p : Nat) (h : Reachable ndebug m)
      (hcall : con_arena_push_ ndebug fuel m object_size = .returned m1 p) :
      Reachable ndebug m1

/-- A byte memory holding the bytes of a list from address `base` on and zero
everywhere else. -/
def text_at (base : Nat) (bytes : List Nat) : Nat → Nat :=
  fun a => if base ≤ a then bytes.getD (a - base) 0 else 0

/-! ## Example memories -/

/-- A byte memory holding "foo", "foo", "bar" and "fo", each with its
terminator, at the addresses 1000, 1004, 1008 and 1012. -/
def words : Nat → Nat :=
  text_at 1000 [102, 111, 111, 0, 102, 111, 111, 0, 98, 97, 114, 0, 102, 111]

/-- A byte memory holding the letter A in the `2 ^ 32` bytes from address 4096
on and zero everywhere else: a terminated text of `2 ^ 32` bytes. -/
def long_text : Nat → Nat :=
  fun a => if 4096 ≤ a ∧ a < 4096 + 4294967296 then 65 else 0


/-- A system that grants four allocations: a chunk record, a buffer at address
65536, a second chunk record and a buffer at address 4194304. -/
def sys_granting : List Nat := [4096, 65536, 8192, 4194304]

/-- An arena right after `con_arena_setup(heap, size)` (release build), no
chunk record in memory, on the system `sys_granting`. -/
def arena_fresh (size : Nat) : Machine :=
  con_arena_setup false ⟨some ⟨0, none, none⟩, [], sys_granting, [], false⟩ size

/-- The arena `arena_fresh 0` after `con_arena_push_(heap, 1)`: one chunk of
1048576 bytes at address 65536 with one byte used. -/
def arena_one_chunk : Machine :=
  ⟨some ⟨1048576, some 0, some 0⟩, [⟨none, 1048576, 65536, 65537⟩], [8192, 4194304], [], false⟩

/-- An arena with two chunks, 10 bytes used in the first and 20 in the second
(the tail), which is the current one. -/
def arena_two_chunks : Machine :=
  ⟨some ⟨1048576, some 0, some 1⟩,
   [⟨some 1, 1048576, 65536, 65546⟩, ⟨none, 1048576, 4194304, 4194324⟩], [], [], false⟩

/-- An arena right after `con_arena_setup(heap, 0)` on a system that grants the
chunk record and then fails. -/
def arena_fresh_no_buffer : Machine :=
  con_arena_setup false ⟨some ⟨0, none, none⟩, [], [4096, 0], [], false⟩ 0

/-! ## Lemmas on `con_arena_push_` -/

theorem set_concat_length {α : Type} (l : List α) (a c : α) :
    (l ++ [a]).set l.length c = l ++ [c] := by
  induction l with
  | nil => rfl
  | cons x xs ih => simp [List.set, ih]

theorem block_size_eq_max (heap : con_arena) (object_size : Nat) :
    block_size heap object_size = max heap.chunk_default_size object_size := by
  unfold block_size
  split
  · rw [Nat.max_eq_left]; omega
  · rw [Nat.max_eq_right]; omega

/-- The first allocation of an arena without chunks, when the system grants the
chunk record: the new chunk is head and current and the cursor is bumped. -/
theorem push_first (ndebug : Bool) (fuel : Nat) (m : Machine) (heap : con_arena)
    (object_size r b : Nat) (rest : List Nat)
    (hheap : m.heap = some heap) (hhead : heap.head = none) (hsize : 1 ≤ object_size)
    (hsys : m.sys = r :: b :: rest) (hr : r ≠ 0) :
    con_arena_push_ ndebug fuel m object_size =
      .returned
        { m with
            heap := some { heap with head := some m.chunks.length,
                                     current := some m.chunks.length },
            chunks := m.chunks ++
              [⟨none, max heap.chunk_default_size object_size, b, b + object_size⟩],
            sys := rest } b := by
  have hs : ¬ object_size < 1 := by omega
  unfold con_arena_push_
  simp only [hheap, hs, if_false, hhead]
  simp [calloc_chunk, calloc, hsys, hr, push_fill, load, store, push_bump,
    block_size_eq_max, set_concat_length]

/-- An allocation smaller than the capacity of the current chunk is served from
that chunk, whatever is left in it. -/
theorem push_served (ndebug : Bool) (fuel : Nat) (m : Machine) (heap : con_arena)
    (h k : Nat) (c : con_chunk) (object_size : Nat)
    (hheap : m.heap = some heap) (hhead : heap.head = some h) (hcur : heap.current = some k)
    (hc : m.chunks[k]? = some c) (hsize : 1 ≤ object_size) (hfit : object_size < c.capacity)
    (hassert : ndebug = true ∨
      to_s32 ((c.capacity : Int) - ((c.new_object_pointer : Int) - (c.buffer : Int))) > -1) :
    con_arena_push_ ndebug (fuel + 1) m object_size =
      .returned
        { m with chunks :=
            m.chunks.set k { c with new_object_pointer := c.new_object_pointer + object_size } }
        c.new_object_pointer := by
  have hs : ¬ object_size < 1 := by omega
  have hno : ¬ (ndebug = false ∧
      ¬ to_s32 ((c.capacity : Int) - ((c.new_object_pointer : Int) - (c.buffer : Int))) > -1) := by
    rintro ⟨h1, h2⟩
    rcases hassert with h3 | h3
    · simp [h1] at h3
    · exact h2 h3
  have hscan : push_scan ndebug m object_size (fuel + 1) (some k) = .ok (false, some k) := by
    simp only [push_scan, load, hc, hno, if_false, hfit, if_true]
  obtain ⟨cds, hd, cur⟩ := heap
  obtain ⟨mh, mc, ms, mf, mhf⟩ := m
  simp only at hheap hhead hcur hc
  subst hheap hhead hcur
  unfold con_arena_push_
  simp only [hs, if_false, hscan, Bool.false_eq_true]
  simp [push_bump, load, hc, store]

/-- The release build of `con_arena_setup` on a non-null arena. -/
theorem setup_release (m : Machine) (a : con_arena) (size : Nat) (h : m.heap = some a) :
    con_arena_setup false m size =
      { m with heap := some ⟨max size 1048576, none, none⟩ } := by
  unfold con_arena_setup XY_INITIALHEAPCHUNKSIZE
  rw [h]
  simp only [Bool.false_eq_true, if_false]
  congr 3
  rcases Nat.lt_or_ge 1048576 size with h1 | h1
  · simp [h1, Nat.max_eq_left (Nat.le_of_lt h1)]
  · have : ¬ size > 1024 * 1024 := by omega
    simp [this, Nat.max_eq_right h1]

theorem to_s32_of_small (x : Int) (h0 : 0 ≤ x) (h1 : x < 2 ^ 31) : to_s32 x = x := by
  unfold to_s32
  omega

theorem set_same {α : Type} (l : List α) (k : Nat) (c : α) (h : l[k]? = some c) :
    l.set k c = l := by
  induction l generalizing k with
  | nil => rfl
  | cons x xs ih =>
    cases k with
    | zero => simp at h; simp [h]
    | succ n => simp at h; simp [ih n h]

theorem push_all_served (ndebug : Bool) (fuel : Nat) (sizes : List Nat) :
    ∀ (m : Machine) (heap : con_arena) (h k : Nat) (nx : Option Nat) (cap b off : Nat),
      m.heap = some heap → heap.head = some h → heap.current = some k →
      m.chunks[k]? = some ⟨nx, cap, b, b + off⟩ →
      (∀ s ∈ sizes, 1 ≤ s) → off + sizes.sum < cap →
      (ndebug = true ∨ (1 ≤ off ∧ cap ≤ 2 ^ 31)) →
      push_all ndebug (fuel + 1) m sizes =
        .returned { m with chunks := m.chunks.set k ⟨nx, cap, b, b + off + sizes.sum⟩ }
          (region_starts (b + off) sizes) := by
  induction sizes with
  | nil =>
    intro m heap h k nx cap b off _ _ _ hc _ _ _
    simp [push_all, region_starts, set_same _ _ _ hc]
  | cons s rest ih =>
    intro m heap h k nx cap b off hheap hhead hcur hc hpos hsum hassert
    have hs : 1 ≤ s := hpos s (by simp)
    simp only [List.sum_cons] at hsum
    have hk : k < m.chunks.length := by
      rcases Nat.lt_or_ge k m.chunks.length with h1 | h1
      · exact h1
      · rw [List.getElem?_eq_none h1] at hc; cases hc
    have hstep := push_served ndebug fuel m heap h k ⟨nx, cap, b, b + off⟩ s hheap hhead hcur hc hs
      (by simp only; omega)
      (by
        rcases hassert with h1 | ⟨h1, h2⟩
        · exact Or.inl h1
        · right
          simp only
          rw [to_s32_of_small] <;> push_cast <;> omega)
    have hrest := ih { m with chunks := m.chunks.set k ⟨nx, cap, b, b + off + s⟩ }
      heap h k nx cap b (off + s) hheap hhead hcur
      (by simp [List.getElem?_set_self hk, Nat.add_assoc])
      (fun x hx => hpos x (by simp [hx])) (by omega)
      (by
        rcases hassert with h1 | ⟨h1, h2⟩
        · exact Or.inl h1
        · exact Or.inr ⟨by omega, h2⟩)
    simp only [Nat.add_assoc] at hrest
    simp only [push_all, hstep, Nat.add_assoc, hrest, region_starts, List.set_set, List.sum_cons]

theorem region_starts_get (sizes : List Nat) :
    ∀ (base i : Nat), i < sizes.length →
      (region_starts base sizes)[i]? = some (base + (sizes.take i).sum) := by
  induction sizes with
  | nil => intro base i h; simp at h
  | cons s rest ih =>
    intro base i h
    cases i with
    | zero => simp [region_starts]
    | succ n =>
      have hn : n < rest.length := by simpa using h
      simp [region_starts, ih (base + s) n hn, Nat.add_assoc]

theorem sum_take_succ (sizes : List Nat) :
    ∀ (i : Nat) (h : i < sizes.length),
      (sizes.take (i + 1)).sum = (sizes.take i).sum + sizes[i] := by
  induction sizes with
  | nil => intro i h; simp at h
  | cons s rest ih =>
    intro i h
    cases i with
    | zero => simp
    | succ n =>
      have hn : n < rest.length := by simpa using h
      simp [ih n hn, Nat.add_assoc]

theorem sum_take_mono (sizes : List Nat) :
    ∀ (i j : Nat), i ≤ j → (sizes.take i).sum ≤ (sizes.take j).sum := by
  induction sizes with
  | nil => intro i j _; simp
  | cons s rest ih =>
    intro i j h
    cases i with
    | zero => simp
    | succ n =>
      cases j with
      | zero => omega
      | succ k =>
        have := ih n k (by omega)
        simp only [List.take_succ_cons, List.sum_cons]
        omega

theorem sum_take_le (sizes : List Nat) (i : Nat) : (sizes.take i).sum ≤ sizes.sum := by
  have h := sum_take_mono sizes i sizes.length
  rcases Nat.le_total i sizes.length with h1 | h1
  · simpa using h h1
  · simp [List.take_of_length_le h1]

/-- Consecutive regions do not overlap and end within the total size. -/
theorem region_starts_disjoint (base : Nat) (sizes : List Nat) (i j : Nat)
    (hij : i < j) (hj : j < sizes.length) :
    base + (sizes.take i).sum + sizes[i] ≤ base + (sizes.take j).sum ∧
    base + (sizes.take j).sum + sizes[j] ≤ base + sizes.sum := by
  have hi : i < sizes.length := by omega
  have h1 := sum_take_succ sizes i hi
  have h2 := sum_take_mono sizes (i + 1) j (by omega)
  have h3 := sum_take_succ sizes j hj
  have h4 := sum_take_le sizes (j + 1)
  omega

/-- On an arena fresh from `con_arena_setup` (release build), when the system
grants the first chunk and either assertions are compiled out or the chunk size
is at most `2 ^ 31`, allocations of sizes `s_1..s_n >= 1` with sum below
`chunk_default_size` are all served from the one head chunk, the `i`-th at
offset `s_1 + ... + s_(i-1)` of its buffer. -/
theorem push_all_within_head_chunk (ndebug : Bool) (fuel : Nat) (m : Machine) (a : con_arena)
    (size r b : Nat) (rest : List Nat) (s : Nat) (sizes : List Nat)
    (hheap : m.heap = some a) (hsys : m.sys = r :: b :: rest) (hr : r ≠ 0)
    (hpos : ∀ x ∈ s :: sizes, 1 ≤ x) (hsum : (s :: sizes).sum < max size 1048576)
    (hassert : ndebug = true ∨ max size 1048576 ≤ 2 ^ 31) :
    push_all ndebug (fuel + 1) (con_arena_setup false m size) (s :: sizes) =
      .returned
        { m with
            heap := some ⟨max size 1048576, some m.chunks.length, some m.chunks.length⟩,
            chunks := m.chunks ++ [⟨none, max size 1048576, b, b + (s :: sizes).sum⟩],
            sys := rest }
        (region_starts b (s :: sizes)) := by
  have hs : 1 ≤ s := hpos s (by simp)
  simp only [List.sum_cons] at hsum
  have hsetup := setup_release m a size hheap
  have hfirst := push_first ndebug (fuel + 1)
    { m with heap := some ⟨max size 1048576, none, none⟩ } ⟨max size 1048576, none, none⟩
    s r b rest rfl rfl hs hsys hr
  have hmax : max (max size 1048576) s = max size 1048576 := by
    apply Nat.max_eq_left; omega
  simp only [hmax] at hfirst
  have hrest := push_all_served ndebug fuel sizes
    { m with
        heap := some ⟨max size 1048576, some m.chunks.length, some m.chunks.length⟩,
        chunks := m.chunks ++ [⟨none, max size 1048576, b, b + s⟩],
        sys := rest }
    ⟨max size 1048576, some m.chunks.length, some m.chunks.length⟩
    m.chunks.length m.chunks.length none (max size 1048576) b s rfl rfl rfl
    (by simp) (fun x hx => hpos x (by simp [hx])) hsum
    (by
      rcases hassert with h1 | h1
      · exact Or.inl h1
      · exact Or.inr ⟨hs, h1⟩)
  simp only [set_concat_length] at hrest
  rw [hsetup]
  simp only [push_all, hfirst, hrest, region_starts, List.sum_cons, Nat.add_assoc]

/-! ## Claims -/

/-- C4: for every memory and arena state, `con_arena_push_(heap, 0)` returns
`NULL` and leaves the memory, the arena and every chunk as they were. -/
theorem push_zero_rejected (ndebug : Bool) (fuel : Nat) (m : Machine) :
    con_arena_push_ ndebug fuel m 0 = .returned m 0 := by
  unfold con_arena_push_
  split <;> simp

/-- C7: on an arena without head chunk, for `object_size >= 1` and a system that
grants the chunk record (`r`) and the buffer (`b`), `con_arena_push_` adds
exactly one chunk record, of capacity `max(chunk_default_size, object_size)`
and without successor, makes it head and current, returns the start `b` of its
buffer and leaves its cursor at `b + object_size`. -/
theorem push_on_empty_arena (ndebug : Bool) (fuel : Nat) (m : Machine) (heap : con_arena)
    (object_size r b : Nat) (rest : List Nat)
    (hheap : m.heap = some heap) (hhead : heap.head = none) (hsize : 1 ≤ object_size)
    (hsys : m.sys = r :: b :: rest) (hr : r ≠ 0) (_hb : b ≠ 0) :
    con_arena_push_ ndebug fuel m object_size =
      .returned
        { m with
            heap := some { heap with head := some m.chunks.length,
                                     current := some m.chunks.length },
            chunks := m.chunks ++
              [⟨none, max heap.chunk_default_size object_size, b, b + object_size⟩],
            sys := rest } b :=
  push_first ndebug fuel m heap object_size r b rest hheap hhead hsize hsys hr

/-- C7, at the arena `arena_fresh 0` and size 3000000. -/
theorem push_on_empty_arena_witness :
    con_arena_push_ false 0 (arena_fresh 0) 3000000 =
      .returned
        ⟨some ⟨1048576, some 0, some 0⟩, [⟨none, 3000000, 65536, 3065536⟩],
         [8192, 4194304], [], false⟩ 65536 :=
  push_on_empty_arena false 0 (arena_fresh 0) ⟨1048576, none, none⟩ 3000000 4096 65536
    [8192, 4194304] rfl rfl (by decide) rfl (by decide) (by decide)

/-- C8: in the release build, `con_arena_setup(heap, size)` on a non-null arena
sets `chunk_default_size` to `max(size, 1048576)`, leaves `head` and `current`
unset, and allocates nothing. -/
theorem setup_default_size (m : Machine) (a : con_arena) (size : Nat) (h : m.heap = some a) :
    con_arena_setup false m size =
      { m with heap := some ⟨max size 1048576, none, none⟩ } :=
  setup_release m a size h

/-- C8, at an arena holding stale pointers and the sizes 5 and 2000000. -/
theorem setup_default_size_witness :
    con_arena_setup false ⟨some ⟨7, some 3, some 4⟩, [], [], [], false⟩ 5 =
      ⟨some ⟨1048576, none, none⟩, [], [], [], false⟩ ∧
    con_arena_setup false ⟨some ⟨7, some 3, some 4⟩, [], [], [], false⟩ 2000000 =
      ⟨some ⟨2000000, none, none⟩, [], [], [], false⟩ :=
  ⟨setup_default_size ⟨some ⟨7, some 3, some 4⟩, [], [], [], false⟩ ⟨7, some 3, some 4⟩ 5 rfl,
   setup_default_size ⟨some ⟨7, some 3, some 4⟩, [], [], [], false⟩ ⟨7, some 3, some 4⟩
     2000000 rfl⟩

/-- C1 (code defect): with assertions compiled in, on an arena set up with
`chunk_default_size = 3000000000` the sizes 1 and 1 (sum 2, far below the chunk
size) are not both served: the first call returns the start of the head chunk,
and in the second call the `s32` value `chunk_capacity_remaining` of
`3000000000 - 1` is negative, so the assertion of line 122 fails.  With
assertions compiled out the second call returns offset 1 of the chunk. -/
theorem push_all_large_chunk_assertion (fuel : Nat) :
    (arena_fresh 3000000000).heap = some ⟨3000000000, none, none⟩ ∧
    push_all false (fuel + 1) (arena_fresh 3000000000) [1] =
      .returned
        ⟨some ⟨3000000000, some 0, some 0⟩, [⟨none, 3000000000, 65536, 65537⟩],
         [8192, 4194304], [], false⟩ [65536] ∧
    to_s32 ((3000000000 : Int) - ((65537 : Int) - (65536 : Int))) = -1294967297 ∧
    push_all false (fuel + 1) (arena_fresh 3000000000) [1, 1] = .stopped .assertion_failed ∧
    push_all true (fuel + 1) (arena_fresh 3000000000) [1, 1] =
      .returned
        ⟨some ⟨3000000000, some 0, some 0⟩, [⟨none, 3000000000, 65536, 65538⟩],
         [8192, 4194304], [], false⟩ [65536, 65537] :=
  ⟨rfl, rfl, by decide, rfl, rfl⟩

/-- C2 (code defect): after `con_arena_setup(heap, 0)` the calls with sizes 100
and 1048575 both return, the second one from the head chunk at offset 100
because 1048575 is below the chunk's capacity 1048576; the cursor then stands
at offset 1048675, beyond the capacity, and with assertions compiled in a third
call fails the assertion of line 122. -/
theorem push_overruns_chunk (ndebug : Bool) (fuel : Nat) :
    push_all ndebug (fuel + 1) (arena_fresh 0) [100, 1048575] =
      .returned
        ⟨some ⟨1048576, some 0, some 0⟩, [⟨none, 1048576, 65536, 65536 + 1048675⟩],
         [8192, 4194304], [], false⟩ [65536, 65536 + 100] ∧
    push_all false (fuel + 1) (arena_fresh 0) [100, 1048575, 1] = .stopped .assertion_failed := by
  cases ndebug <;> exact ⟨rfl, rfl⟩

/-- C3 (code defect): the arena `arena_one_chunk` is reached from
`con_arena_setup(heap, 0)` by one call of size 1; on it a call of size 2000000,
above `chunk_default_size = 1048576`, does not append a chunk: the scan sets
`heap->current` to the unset successor of the only chunk and reads its `next`
field (line 130). -/
theorem push_above_default_size_faults (ndebug : Bool) (fuel : Nat) :
    push_all ndebug (fuel + 1) (arena_fresh 0) [1] = .returned arena_one_chunk [65536] ∧
    con_arena_push_ ndebug (fuel + 1) arena_one_chunk 2000000 = .stopped .null_dereference := by
  cases ndebug <;> exact ⟨rfl, rfl⟩

/-- C5 (code defect): on the arena `arena_one_chunk` (one chunk, reached by
setup and one allocation) `con_arena_reset` reads the `next` field of the unset
successor (line 163); on the arena `arena_two_chunks` it returns with the first
cursor back at its buffer and the cursor of the tail chunk still 20 bytes
in. -/
theorem reset_misses_tail_chunk (fuel : Nat) :
    push_all false 1 (arena_fresh 0) [1] = .returned arena_one_chunk [65536] ∧
    con_arena_reset (fuel + 1) arena_one_chunk = .stopped .null_dereference ∧
    con_arena_reset (fuel + 1) arena_two_chunks =
      .returned
        ⟨some ⟨1048576, some 0, some 0⟩,
         [⟨some 1, 1048576, 65536, 65536⟩, ⟨none, 1048576, 4194304, 4194324⟩],
         [], [], false⟩ () :=
  ⟨rfl, rfl, rfl⟩

/-- C6 (code defect): on a freshly set-up arena `con_arena_teardown` reads the
`next` field of the unset head (line 86); on the arena `arena_one_chunk` it
returns without a call of `free`, and on `arena_two_chunks` it frees the buffer
of the first chunk only. -/
theorem teardown_misses_tail_chunk (fuel : Nat) :
    con_arena_teardown (fuel + 1) (arena_fresh 0) = .stopped .null_dereference ∧
    con_arena_teardown (fuel + 1) arena_one_chunk = .returned arena_one_chunk () ∧
    arena_one_chunk.freed = [] ∧
    con_arena_teardown (fuel + 2) arena_two_chunks =
      .returned { arena_two_chunks with freed := [65536] } () :=
  ⟨rfl, rfl, rfl, rfl⟩

/-- C9 (code defect): when the system grants the chunk record and refuses the
buffer, the first call `con_arena_push_(heap, 8)` returns `NULL` and links a
chunk of capacity 1048576 whose buffer is `NULL` and whose cursor is `NULL + 8`;
the next call `con_arena_push_(heap, 8)` returns the non-null address 8, which
lies in no buffer. -/
theorem push_links_chunk_without_buffer (ndebug : Bool) (fuel : Nat) :
    con_arena_push_ ndebug fuel arena_fresh_no_buffer 8 =
      .returned ⟨some ⟨1048576, some 0, some 0⟩, [⟨none, 1048576, 0, 8⟩], [], [], false⟩ 0 ∧
    con_arena_push_ ndebug (fuel + 1)
        ⟨some ⟨1048576, some 0, some 0⟩, [⟨none, 1048576, 0, 8⟩], [], [], false⟩ 8 =
      .returned ⟨some ⟨1048576, some 0, some 0⟩, [⟨none, 1048576, 0, 16⟩], [], [], false⟩ 8 := by
  cases ndebug <;> exact ⟨rfl, rfl⟩

/-- C10 (code defect): for the view of "hello" (size 5, capacity 5, at address
1000) `con_string_part(v, 1, 3)` returns data `1001` and size `5 - (1 - 3) = 7`
in `u32` arithmetic, not size 3. -/
theorem string_part_size_wrong :
    con_string_part ⟨1000, 5, 5⟩ 1 3 = ⟨1001, 7, 5⟩ := by
  decide

/-! ## Lemmas on the string functions -/

theorem u32_mod_eq : u32_mod = 4294967296 := by decide

theorem is_white_space_of_ascii (cs : Bool) (b : Nat) (h : ascii_white_space (b % 256) = true) :
    is_white_space (char_of_byte cs b) = true := by
  simp only [ascii_white_space, Bool.or_eq_true, beq_iff_eq] at h
  simp only [is_white_space, char_of_byte, Bool.or_eq_true, beq_iff_eq]
  split <;> omega

theorem not_white_space_of_spec (cs : Bool) (b : Nat) (h : spec_white_space (b % 256) = false) :
    is_white_space (char_of_byte cs b) = false := by
  simp only [spec_white_space, ascii_white_space, Bool.or_eq_false_iff, beq_eq_false_iff_ne,
    ne_eq] at h
  simp only [is_white_space, char_of_byte, Bool.or_eq_false_iff, beq_eq_false_iff_ne, ne_eq]
  split <;> omega

theorem skip_exact (cs : Bool) (mem : Nat → Nat) (k : Nat) :
    ∀ (fuel : Nat) (v : con_string),
      (∀ i, i < k → is_white_space (char_of_byte cs (mem (v.data + i))) = true) →
      is_white_space (char_of_byte cs (mem (v.data + k))) = false →
      k < fuel → k ≤ u32_mod → v.size < u32_mod → v.capacity < u32_mod →
      con_string_skip_white_space cs mem fuel v =
        some ⟨v.data + k, (v.size + u32_mod - k) % u32_mod,
          (v.capacity + u32_mod - k) % u32_mod⟩ := by
  induction k with
  | zero =>
    intro fuel v _ hnot hfuel _ hsize hcap
    obtain ⟨f, rfl⟩ : ∃ f, fuel = f + 1 := ⟨fuel - 1, by omega⟩
    obtain ⟨d, sz, cp⟩ := v
    simp only [Nat.add_zero] at hnot
    simp only at hsize hcap
    rw [u32_mod_eq] at hsize hcap
    simp only [con_string_skip_white_space, hnot, Bool.false_eq_true, if_false, u32_mod_eq,
      Nat.add_zero, Nat.sub_zero, Option.some.injEq, con_string.mk.injEq, true_and]
    omega
  | succ n ih =>
    intro fuel v hws hnot hfuel hk hsize hcap
    obtain ⟨f, rfl⟩ : ∃ f, fuel = f + 1 := ⟨fuel - 1, by omega⟩
    obtain ⟨d, sz, cp⟩ := v
    simp only at hws hnot hsize hcap
    have h0 := hws 0 (by omega)
    simp only [Nat.add_zero] at h0
    rw [u32_mod_eq] at hsize hcap hk
    have hrec := ih f ⟨d + 1, (sz + u32_mod - 1) % u32_mod, (cp + u32_mod - 1) % u32_mod⟩
      (fun i hi => by
        have := hws (i + 1) (by omega)
        simpa [Nat.add_assoc, Nat.add_comm 1 i] using this)
      (by simpa [Nat.add_assoc, Nat.add_comm 1 n] using hnot)
      (by omega) (by rw [u32_mod_eq]; omega)
      (by simp only [u32_mod_eq]; omega) (by simp only [u32_mod_eq]; omega)
    simp only [u32_mod_eq] at hrec
    simp only [con_string_skip_white_space, h0, if_true, u32_mod_eq, hrec,
      Option.some.injEq, con_string.mk.injEq]
    omega

theorem skip_result_not_white_space (cs : Bool) (mem : Nat → Nat) (fuel : Nat) :
    ∀ (v r : con_string), con_string_skip_white_space cs mem fuel v = some r →
      is_white_space (char_of_byte cs (mem r.data)) = false := by
  induction fuel with
  | zero => intro v r h; simp [con_string_skip_white_space] at h
  | succ f ih =>
    intro v r h
    unfold con_string_skip_white_space at h
    split at h
    · exact ih _ r h
    · rename_i hn
      simp only [Option.some.injEq] at h
      subst h
      simpa using hn

theorem strlen_eq (mem : Nat → Nat) (n : Nat) :
    ∀ (fuel p : Nat), (∀ i, i < n → mem (p + i) % 256 ≠ 0) → mem (p + n) % 256 = 0 →
      n < fuel → strlen mem fuel p = some n := by
  induction n with
  | zero =>
    intro fuel p _ hz hfuel
    obtain ⟨f, rfl⟩ : ∃ f, fuel = f + 1 := ⟨fuel - 1, by omega⟩
    simp only [Nat.add_zero] at hz
    simp [strlen, hz]
  | succ k ih =>
    intro fuel p hnz hz hfuel
    obtain ⟨f, rfl⟩ : ∃ f, fuel = f + 1 := ⟨fuel - 1, by omega⟩
    have h0 := hnz 0 (by omega)
    simp only [Nat.add_zero] at h0
    have hrec := ih f (p + 1)
      (fun i hi => by
        have := hnz (i + 1) (by omega)
        simpa [Nat.add_assoc, Nat.add_comm 1 i] using this)
      (by simpa [Nat.add_assoc, Nat.add_comm 1 k] using hz) (by omega)
    simp [strlen, h0, hrec]

theorem strlen_le (mem : Nat → Nat) (n : Nat) :
    ∀ (fuel p : Nat), mem (p + n) % 256 = 0 → n < fuel →
      ∃ l, l ≤ n ∧ strlen mem fuel p = some l := by
  induction n with
  | zero =>
    intro fuel p hz hfuel
    obtain ⟨f, rfl⟩ : ∃ f, fuel = f + 1 := ⟨fuel - 1, by omega⟩
    simp only [Nat.add_zero] at hz
    exact ⟨0, Nat.le_refl 0, by simp [strlen, hz]⟩
  | succ k ih =>
    intro fuel p hz hfuel
    obtain ⟨f, rfl⟩ : ∃ f, fuel = f + 1 := ⟨fuel - 1, by omega⟩
    by_cases h0 : mem p % 256 = 0
    · exact ⟨0, Nat.zero_le _, by simp [strlen, h0]⟩
    · obtain ⟨l, hl, hs⟩ := ih f (p + 1)
        (by simpa [Nat.add_assoc, Nat.add_comm 1 k] using hz) (by omega)
      exact ⟨l + 1, by omega, by simp [strlen, h0, hs]⟩

theorem char_of_byte_ne_iff (cs : Bool) (x y : Nat) :
    char_of_byte cs x ≠ char_of_byte cs y ↔ x % 256 ≠ y % 256 := by
  unfold char_of_byte
  cases cs
  · simp only [Bool.false_eq_true, false_and, if_false]
    omega
  · simp only [true_and]
    split <;> split <;> omega

theorem match_loop_equal (cs : Bool) (mem : Nat → Nat) (a b : con_string) (fuel : Nat) :
    ∀ (i : Nat), a.size < u32_mod → a.size - i < fuel →
      (∀ j, i ≤ j → j < a.size → mem (a.data + j) % 256 = mem (b.data + j) % 256) →
      match_loop cs mem a b fuel i = some 0 := by
  induction fuel with
  | zero =>
    intro i _ hf _
    omega
  | succ f ih =>
    intro i hsz hf heq
    unfold match_loop
    by_cases hi : i < a.size
    · have hne : ¬ (char_of_byte cs (mem (a.data + i)) ≠ char_of_byte cs (mem (b.data + i))) := by
        rw [char_of_byte_ne_iff]
        exact fun h => h (heq i (Nat.le_refl i) hi)
      have hmod : (i + 1) % u32_mod = i + 1 := Nat.mod_eq_of_lt (by omega)
      simp only [hi, if_true, hne, if_false, hmod]
      exact ih (i + 1) hsz (by omega) (fun j hj hlt => heq j (by omega) hlt)
    · simp [hi]

theorem match_loop_differ (cs : Bool) (mem : Nat → Nat) (a b : con_string) (fuel : Nat) :
    ∀ (i j : Nat), a.size < u32_mod → j < fuel + i → i ≤ j → j < a.size →
      mem (a.data + j) % 256 ≠ mem (b.data + j) % 256 →
      match_loop cs mem a b fuel i = some 2 := by
  induction fuel with
  | zero =>
    intro i j _ hf hij _ _
    omega
  | succ f ih =>
    intro i j hsz hf hij hj hne
    unfold match_loop
    have hi : i < a.size := by omega
    by_cases hc : char_of_byte cs (mem (a.data + i)) ≠ char_of_byte cs (mem (b.data + i))
    · simp [hi, hc]
    · have hmod : (i + 1) % u32_mod = i + 1 := Nat.mod_eq_of_lt (by omega)
      have hij2 : i ≠ j := by
        intro h
        subst h
        exact hc ((char_of_byte_ne_iff cs _ _).2 hne)
      simp only [hi, if_true, hc, if_false, hmod]
      exact ih (i + 1) j hsz (by omega) (by omega) hj hne

theorem from_nts_of_strlen (mem : Nat → Nat) (fuel p n : Nat)
    (h : strlen mem fuel p = some n) :
    con_string_from_nts mem fuel p = some ⟨p, n % u32_mod, n % u32_mod⟩ := by
  simp only [con_string_from_nts, h]

theorem long_text_nonzero : ∀ i, i < 4294967296 → long_text (4096 + i) % 256 ≠ 0 := by
  intro i hi
  have hc : 4096 ≤ 4096 + i ∧ 4096 + i < 4096 + 4294967296 := ⟨by omega, by omega⟩
  simp only [long_text, hc, and_self, if_true]
  decide

theorem long_text_end : long_text (4096 + 4294967296) % 256 = 0 := by
  have hc : ¬ (4096 ≤ 4096 + 4294967296 ∧ 4096 + 4294967296 < 4096 + 4294967296) := by omega
  simp only [long_text, hc, if_false]

theorem long_text_strlen (fuel : Nat) (hf : fuel = 4294967297) :
    strlen long_text fuel 4096 = some 4294967296 :=
  strlen_eq long_text 4294967296 fuel 4096 long_text_nonzero long_text_end (by omega)

/-! ## Lemmas on the chunk chain -/

theorem push_populated (ndebug : Bool) (fuel : Nat) (m : Machine) (heap : con_arena)
    (k : Nat) (c : con_chunk) (object_size : Nat)
    (hheap : m.heap = some heap) (hhead : heap.head = some k) (hcur : heap.current = some k)
    (hc : m.chunks[k]? = some c) (hnext : c.next = none) (hsize : 1 ≤ object_size) :
    con_arena_push_ ndebug (fuel + 1) m object_size =
      if ndebug = false ∧
          ¬ to_s32 ((c.capacity : Int) - ((c.new_object_pointer : Int) - (c.buffer : Int))) > -1
      then .stopped .assertion_failed
      else if object_size < c.capacity then
        .returned
          { m with chunks :=
              m.chunks.set k { c with new_object_pointer := c.new_object_pointer + object_size } }
          c.new_object_pointer
      else .stopped .null_dereference := by
  have hs : ¬ object_size < 1 := by omega
  by_cases ha : ndebug = false ∧
      ¬ to_s32 ((c.capacity : Int) - ((c.new_object_pointer : Int) - (c.buffer : Int))) > -1
  · have hscan : push_scan ndebug m object_size (fuel + 1) (some k) = .error .assertion_failed := by
      simp only [push_scan, load, hc, ha, and_self, not_false_eq_true, if_true]
    rw [if_pos ha]
    unfold con_arena_push_
    simp only [hheap, hs, if_false, hhead, hcur, hscan]
  · rw [if_neg ha]
    by_cases hfit : object_size < c.capacity
    · rw [if_pos hfit]
      refine push_served ndebug fuel m heap k k c object_size hheap hhead hcur hc hsize hfit ?_
      by_cases hn : ndebug = true
      · exact Or.inl hn
      · right
        by_contra hcon
        exact ha ⟨by simpa using hn, hcon⟩
    · rw [if_neg hfit]
      have hscan : push_scan ndebug m object_size (fuel + 1) (some k) =
          .error .null_dereference := by
        simp only [push_scan, load, hc, ha, if_false, hfit, hnext]
      unfold con_arena_push_
      simp only [hheap, hs, if_false, hhead, hcur, hscan]

theorem push_empty_cases (ndebug : Bool) (fuel : Nat) (m : Machine) (heap : con_arena)
    (object_size : Nat) (hheap : m.heap = some heap) (hhead : heap.head = none)
    (hsize : 1 ≤ object_size) :
    (∃ sys1, con_arena_push_ ndebug fuel m object_size =
        .returned { m with heap := some { heap with head := none, current := none },
                           sys := sys1, heap_freed := true } 0) ∨
    (∃ b sys1, con_arena_push_ ndebug fuel m object_size =
        .returned
          { m with
              heap := some { heap with head := some m.chunks.length,
                                       current := some m.chunks.length },
              chunks := m.chunks ++
                [⟨none, max heap.chunk_default_size object_size, b, b + object_size⟩],
              sys := sys1 } b) := by
  have hs : ¬ object_size < 1 := by omega
  obtain ⟨mh, mc, ms, mf, mhf⟩ := m
  simp only at hheap
  subst hheap
  cases ms with
  | nil =>
    left
    refine ⟨[], ?_⟩
    unfold con_arena_push_
    simp [hs, hhead, calloc_chunk, calloc]
  | cons r rest =>
    by_cases hr : r = 0
    · left
      refine ⟨rest, ?_⟩
      unfold con_arena_push_
      simp [hs, hhead, calloc_chunk, calloc, hr]
    · right
      cases rest with
      | nil =>
        refine ⟨0, [], ?_⟩
        unfold con_arena_push_
        simp [hs, hhead, calloc_chunk, calloc, hr, push_fill, load, store, push_bump,
          block_size_eq_max, set_concat_length]
      | cons b rest2 =>
        exact ⟨b, rest2, push_first ndebug fuel _ heap object_size r b rest2 rfl hhead hsize rfl hr⟩

theorem push_keeps_at_most_one_chunk (ndebug : Bool) (fuel : Nat) (m m1 : Machine)
    (object_size p : Nat) (hinv : at_most_one_chunk m)
    (hcall : con_arena_push_ ndebug fuel m object_size = .returned m1 p) :
    at_most_one_chunk m1 := by
  obtain ⟨heap, hheap, hcase⟩ := hinv
  by_cases hsize : 1 ≤ object_size
  · rcases hcase with ⟨hhead, _⟩ | ⟨k, c, hhead, hcur, hc, hnext⟩
    · rcases push_empty_cases ndebug fuel m heap object_size hheap hhead hsize with
        ⟨sys1, h⟩ | ⟨b, sys1, h⟩
      · rw [h] at hcall
        simp only [Outcome.returned.injEq] at hcall
        obtain ⟨rfl, _⟩ := hcall
        exact ⟨_, rfl, Or.inl ⟨rfl, rfl⟩⟩
      · rw [h] at hcall
        simp only [Outcome.returned.injEq] at hcall
        obtain ⟨rfl, _⟩ := hcall
        exact ⟨_, rfl, Or.inr ⟨m.chunks.length,
          ⟨none, max heap.chunk_default_size object_size, b, b + object_size⟩,
          rfl, rfl, by simp, rfl⟩⟩
    · cases fuel with
      | zero =>
        unfold con_arena_push_ at hcall
        have hs : ¬ object_size < 1 := by omega
        simp [hheap, hs, hhead, hcur, push_scan] at hcall
      | succ f =>
        rw [push_populated ndebug f m heap k c object_size hheap hhead hcur hc hnext hsize] at hcall
        split at hcall
        · cases hcall
        · split at hcall
          · simp only [Outcome.returned.injEq] at hcall
            obtain ⟨rfl, _⟩ := hcall
            have hk : k < m.chunks.length := by
              rcases Nat.lt_or_ge k m.chunks.length with h1 | h1
              · exact h1
              · rw [List.getElem?_eq_none h1] at hc; cases hc
            exact ⟨heap, hheap, Or.inr ⟨k,
              { c with new_object_pointer := c.new_object_pointer + object_size },
              hhead, hcur, by simp [List.getElem?_set_self hk], hnext⟩⟩
          · cases hcall
  · have h0 : object_size = 0 := by omega
    subst h0
    have : con_arena_push_ ndebug fuel m 0 = .returned m 0 := by
      unfold con_arena_push_
      split <;> simp
    rw [this] at hcall
    simp only [Outcome.returned.injEq] at hcall
    obtain ⟨rfl, _⟩ := hcall
    exact ⟨heap, hheap, hcase⟩

theorem setup_at_most_one_chunk (debug : Bool) (m : Machine) (size : Nat) (h : m.heap ≠ none) :
    at_most_one_chunk (con_arena_setup debug m size) := by
  unfold con_arena_setup
  cases hm : m.heap with
  | none => exact absurd hm h
  | some a => exact ⟨_, rfl, Or.inl ⟨rfl, rfl⟩⟩

theorem reachable_at_most_one_chunk (ndebug : Bool) (m : Machine) (h : Reachable ndebug m) :
    at_most_one_chunk m := by
  induction h with
  | setup debug m size h => exact setup_at_most_one_chunk debug m size h
  | push fuel m m1 object_size p _ hcall ih =>
    exact push_keeps_at_most_one_chunk ndebug fuel m m1 object_size p ih hcall

/-! ## Claims on the string functions and on the chunk chain -/

/-- C11 (counterexample): for the view of "hello" (size 5) the request
`con_string_part(v, 3, 10)` has `3 + 10 > 5`, and the call returns a view, of
size 12, more than the 5 bytes of the source view. -/
theorem string_part_out_of_range_returns_view :
    3 + 10 > (con_string.mk 1000 5 5).size ∧
    con_string_part ⟨1000, 5, 5⟩ 3 10 = ⟨1003, 12, 5⟩ ∧
    (con_string_part ⟨1000, 5, 5⟩ 3 10).size > (con_string.mk 1000 5 5).size := by
  decide

/-- C11 (amended): `con_string_part` has no error result and validates nothing:
for every view and every `start`, `length`, whether or not
`start + length <= v.size`, it returns a view whose data is `v.data + start`. -/
theorem string_part_no_validation (v : con_string) (start length : Nat) :
    (con_string_part v start length).data = v.data + start :=
  rfl

/-- C13: for every view whose first `k` bytes are ASCII whitespace and whose
byte at offset `k < size` is no whitespace byte of the specification, the call
returns data `+ k`, size `- k` and capacity `- k` (in `u32` arithmetic, which
is the plain difference when `k <= capacity`); the call only reads the byte
memory.  This holds for signed and unsigned `char`. -/
theorem skip_leading_white_space (cs : Bool) (mem : Nat → Nat) (fuel k : Nat) (v : con_string)
    (hws : ∀ i, i < k → ascii_white_space (mem (v.data + i) % 256) = true)
    (hnot : spec_white_space (mem (v.data + k) % 256) = false)
    (hk : k < v.size) (hsize : v.size < u32_mod) (hcap : v.capacity < u32_mod)
    (hfuel : k < fuel) :
    con_string_skip_white_space cs mem fuel v =
      some ⟨v.data + k, v.size - k, (v.capacity + u32_mod - k) % u32_mod⟩ ∧
    (k ≤ v.capacity → (v.capacity + u32_mod - k) % u32_mod = v.capacity - k) := by
  rw [u32_mod_eq] at hsize hcap
  constructor
  · rw [skip_exact cs mem k fuel v (fun i hi => is_white_space_of_ascii cs _ (hws i hi))
      (not_white_space_of_spec cs _ hnot) hfuel (by rw [u32_mod_eq]; omega)
      (by rw [u32_mod_eq]; omega) (by rw [u32_mod_eq]; omega)]
    simp only [u32_mod_eq, Option.some.injEq, con_string.mk.injEq, true_and, and_true]
    omega
  · intro hle
    rw [u32_mod_eq]
    omega

/-- C13, at the view of "   abc": the result has size 3 and starts at "abc". -/
theorem skip_leading_white_space_witness :
    con_string_skip_white_space true (text_at 1000 [32, 32, 32, 97, 98, 99]) 4 ⟨1000, 6, 6⟩ =
      some ⟨1003, 3, 3⟩ ∧
    [1003, 1004, 1005].map (text_at 1000 [32, 32, 32, 97, 98, 99]) = [97, 98, 99] :=
  ⟨(skip_leading_white_space true (text_at 1000 [32, 32, 32, 97, 98, 99]) 4 3 ⟨1000, 6, 6⟩
      (fun i hi => by interval_cases i <;> decide) (by decide) (by decide) (by decide)
      (by decide) (by decide)).1,
   by decide⟩

/-- C14 (code defect): where plain `char` is signed, a `char` holding EF, BB or
BF is negative and equals none of the constants `0xEF`, `0xBB`, `0xBF` of type
`int`, so `is_white_space` returns false and a view starting with EF BB BF is
returned as it is; where `char` is unsigned the three bytes are skipped. -/
theorem byte_order_mark_not_skipped :
    char_of_byte true 0xEF = -17 ∧
    is_white_space (char_of_byte true 0xEF) = false ∧
    is_white_space (char_of_byte true 0xBB) = false ∧
    is_white_space (char_of_byte true 0xBF) = false ∧
    con_string_skip_white_space true (text_at 1000 [0xEF, 0xBB, 0xBF, 97]) 4 ⟨1000, 4, 4⟩ =
      some ⟨1000, 4, 4⟩ ∧
    is_white_space (char_of_byte false 0xEF) = true ∧
    is_white_space (char_of_byte false 0xBB) = true ∧
    is_white_space (char_of_byte false 0xBF) = true ∧
    con_string_skip_white_space false (text_at 1000 [0xEF, 0xBB, 0xBF, 97]) 4 ⟨1000, 4, 4⟩ =
      some ⟨1003, 1, 1⟩ := by
  decide

/-- C15: when `con_string_skip_white_space(v)` returns `r`, the call on `r`
returns `r` again, in all three fields. -/
theorem skip_idempotent (cs : Bool) (mem : Nat → Nat) (fuel fuel2 : Nat) (v r : con_string)
    (h : con_string_skip_white_space cs mem fuel v = some r) :
    con_string_skip_white_space cs mem (fuel2 + 1) r = some r := by
  have hn := skip_result_not_white_space cs mem fuel v r h
  simp [con_string_skip_white_space, hn]

/-- C15, at the view of "   abc". -/
theorem skip_idempotent_witness :
    con_string_skip_white_space true (text_at 1000 [32, 32, 32, 97, 98, 99]) 4 ⟨1000, 6, 6⟩ =
      some ⟨1003, 3, 3⟩ ∧
    con_string_skip_white_space true (text_at 1000 [32, 32, 32, 97, 98, 99]) 1 ⟨1003, 3, 3⟩ =
      some ⟨1003, 3, 3⟩ :=
  ⟨by decide,
   skip_idempotent true (text_at 1000 [32, 32, 32, 97, 98, 99]) 4 0 ⟨1000, 6, 6⟩ ⟨1003, 3, 3⟩
     (by decide)⟩

/-- C16: `con_string_match(a, b)` returns 1 exactly when the sizes differ, 2
exactly when the sizes are equal and the bytes differ at some index below the
size, and 0 exactly when the sizes are equal and the first `a.size` bytes
agree. -/
theorem match_tri_state (cs : Bool) (mem : Nat → Nat) (fuel : Nat) (a b : con_string)
    (hsize : a.size < u32_mod) (hfuel : a.size < fuel) :
    (con_string_match cs mem fuel a b = some 1 ↔ a.size ≠ b.size) ∧
    (con_string_match cs mem fuel a b = some 2 ↔
      a.size = b.size ∧ ∃ i, i < a.size ∧ mem (a.data + i) % 256 ≠ mem (b.data + i) % 256) ∧
    (con_string_match cs mem fuel a b = some 0 ↔
      a.size = b.size ∧ ∀ i, i < a.size → mem (a.data + i) % 256 = mem (b.data + i) % 256) := by
  by_cases hs : a.size = b.size
  · by_cases hd : ∃ i, i < a.size ∧ mem (a.data + i) % 256 ≠ mem (b.data + i) % 256
    · obtain ⟨j, hj, hne⟩ := hd
      have h2 : con_string_match cs mem fuel a b = some 2 := by
        unfold con_string_match
        simp only [hs, ne_eq, not_true_eq_false, if_false]
        exact match_loop_differ cs mem a b fuel 0 j hsize (by omega) (Nat.zero_le j) hj hne
      rw [h2]
      refine ⟨⟨fun h => (by cases h), fun h => absurd hs h⟩,
        ⟨fun _ => ⟨hs, j, hj, hne⟩, fun _ => rfl⟩,
        ⟨fun h => (by cases h), fun h => absurd (h.2 j hj) hne⟩⟩
    · have hall : ∀ i, i < a.size → mem (a.data + i) % 256 = mem (b.data + i) % 256 := by
        intro i hi
        by_contra hne
        exact hd ⟨i, hi, hne⟩
      have h0 : con_string_match cs mem fuel a b = some 0 := by
        unfold con_string_match
        simp only [hs, ne_eq, not_true_eq_false, if_false]
        exact match_loop_equal cs mem a b fuel 0 hsize (by omega) (fun j _ hj => hall j hj)
      rw [h0]
      refine ⟨⟨fun h => (by cases h), fun h => absurd hs h⟩,
        ⟨fun h => (by cases h), fun h => absurd h.2 hd⟩,
        ⟨fun _ => ⟨hs, hall⟩, fun _ => rfl⟩⟩
  · have h1 : con_string_match cs mem fuel a b = some 1 := by
      unfold con_string_match
      simp [hs]
    rw [h1]
    refine ⟨⟨fun _ => hs, fun _ => rfl⟩,
      ⟨fun h => (by cases h), fun h => absurd h.1 hs⟩,
      ⟨fun h => (by cases h), fun h => absurd h.1 hs⟩⟩

/-- C16, at "foo" against "bar" (the characterisation), with the three results
of the examples: "foo" and "foo" give 0, "foo" and "bar" give 2, "fo" and "foo"
give 1. -/
theorem match_tri_state_witness :
    ((con_string_match true words 4 ⟨1000, 3, 3⟩ ⟨1008, 3, 3⟩ = some 1 ↔ (3 : Nat) ≠ 3) ∧
     (con_string_match true words 4 ⟨1000, 3, 3⟩ ⟨1008, 3, 3⟩ = some 2 ↔
        (3 : Nat) = 3 ∧ ∃ i, i < 3 ∧ words (1000 + i) % 256 ≠ words (1008 + i) % 256) ∧
     (con_string_match true words 4 ⟨1000, 3, 3⟩ ⟨1008, 3, 3⟩ = some 0 ↔
        (3 : Nat) = 3 ∧ ∀ i, i < 3 → words (1000 + i) % 256 = words (1008 + i) % 256)) ∧
    con_string_match true words 4 ⟨1000, 3, 3⟩ ⟨1004, 3, 3⟩ = some 0 ∧
    con_string_match true words 4 ⟨1000, 3, 3⟩ ⟨1008, 3, 3⟩ = some 2 ∧
    con_string_match true words 4 ⟨1012, 2, 2⟩ ⟨1000, 3, 3⟩ = some 1 :=
  ⟨match_tri_state true words 4 ⟨1000, 3, 3⟩ ⟨1008, 3, 3⟩ (by decide) (by decide),
   by decide, by decide, by decide⟩

/-- C18: `con_string_to_nts(v)` returns the pointer `v.data`, leaves a zero byte
at offset `v.size`, and changes no other byte; so the first `v.size` bytes
are those of the view and the text read from the returned pointer ends after
at most `v.size` bytes. -/
theorem to_nts_terminates_in_place (mem : Nat → Nat) (v : con_string) (extra : Nat) :
    (con_string_to_nts mem v).2 = v.data ∧
    (con_string_to_nts mem v).1 (v.data + v.size) = 0 ∧
    (∀ a, a ≠ v.data + v.size → (con_string_to_nts mem v).1 a = mem a) ∧
    (∀ i, i < v.size → (con_string_to_nts mem v).1 (v.data + i) = mem (v.data + i)) ∧
    (∃ n, n ≤ v.size ∧
      strlen (con_string_to_nts mem v).1 (v.size + 1 + extra) v.data = some n) := by
  have hz : (con_string_to_nts mem v).1 (v.data + v.size) = 0 := by
    simp [con_string_to_nts]
  have hframe : ∀ a, a ≠ v.data + v.size → (con_string_to_nts mem v).1 a = mem a := by
    intro a ha
    simp [con_string_to_nts, Function.update, ha]
  refine ⟨rfl, hz, hframe, fun i hi => hframe _ (by omega), ?_⟩
  exact strlen_le (con_string_to_nts mem v).1 v.size (v.size + 1 + extra) v.data
    (by rw [hz]) (by omega)

/-- C19 (counterexample): in the memory `long_text` the text at address 4096 is
terminated and has `2 ^ 32` bytes before its first zero byte, and
`con_string_from_nts` returns a view of size 0 and capacity 0. -/
theorem from_nts_wraps_length :
    (∀ i, i < 4294967296 → long_text (4096 + i) % 256 ≠ 0) ∧
    long_text (4096 + 4294967296) % 256 = 0 ∧
    con_string_from_nts long_text 4294967297 4096 = some ⟨4096, 0, 0⟩ :=
  ⟨long_text_nonzero, long_text_end,
   from_nts_of_strlen long_text 4294967297 4096 4294967296 (long_text_strlen 4294967297 rfl)⟩

/-- C19 (amended): for every byte sequence at `s` whose first zero byte comes
after `n < 2 ^ 32` bytes, `con_string_from_nts(s)` returns the view with data
`s`, size `n` and capacity `n`. -/
theorem from_nts_wraps_text (mem : Nat → Nat) (fuel p n : Nat)
    (hnz : ∀ i, i < n → mem (p + i) % 256 ≠ 0) (hz : mem (p + n) % 256 = 0)
    (hn : n < u32_mod) (hfuel : n < fuel) :
    con_string_from_nts mem fuel p = some ⟨p, n, n⟩ := by
  simp only [con_string_from_nts, strlen_eq mem n fuel p hnz hz hfuel, Nat.mod_eq_of_lt hn]

/-- C19 (amended), at the text "hello". -/
theorem from_nts_wraps_text_witness :
    con_string_from_nts (text_at 1000 [104, 101, 108, 108, 111]) 6 1000 = some ⟨1000, 5, 5⟩ :=
  from_nts_wraps_text (text_at 1000 [104, 101, 108, 108, 111]) 6 1000 5
    (fun i hi => by interval_cases i <;> decide) (by decide) (by decide) (by decide)

/-- C20 (counterexample): with assertions compiled in, the arena reached from
`con_arena_setup(heap, 0)` by two calls of size 1048575 has one chunk of
capacity 1048576 with its cursor at offset 2097150; the next call, of size 1,
is below the capacity and is not served from the chunk: the assertion of line
122 fails. -/
theorem push_below_capacity_not_served :
    push_all false 1 (arena_fresh 0) [1048575, 1048575] =
      .returned
        ⟨some ⟨1048576, some 0, some 0⟩, [⟨none, 1048576, 65536, 65536 + 2097150⟩],
         [8192, 4194304], [], false⟩ [65536, 65536 + 1048575] ∧
    (1 : Nat) < 1048576 ∧
    con_arena_push_ false 1
        ⟨some ⟨1048576, some 0, some 0⟩, [⟨none, 1048576, 65536, 65536 + 2097150⟩],
         [8192, 4194304], [], false⟩ 1 = .stopped .assertion_failed :=
  ⟨rfl, by decide, rfl⟩

/-- C20 (amended): every arena state reached from `con_arena_setup` by calls of
`con_arena_push_` that return has at most one chunk (head and current are the
same chunk and its successor is unset).  On such an arena with a chunk, a call
with `object_size >= 1` fails the assertion of line 122 when assertions are
compiled in and the `s32` remaining capacity is negative; otherwise it is served
from that chunk exactly when `object_size` is below the chunk's capacity, and
otherwise it reads the `next` field of the unset successor, so that no second
chunk is appended. -/
theorem reachable_single_chunk (ndebug : Bool) (m : Machine) (h : Reachable ndebug m) :
    at_most_one_chunk m ∧
    ∀ (heap : con_arena) (k : Nat) (c : con_chunk) (fuel object_size : Nat),
      m.heap = some heap → heap.head = some k → m.chunks[k]? = some c → 1 ≤ object_size →
      con_arena_push_ ndebug (fuel + 1) m object_size =
        if ndebug = false ∧
            ¬ to_s32 ((c.capacity : Int) - ((c.new_object_pointer : Int) - (c.buffer : Int))) > -1
        then .stopped .assertion_failed
        else if object_size < c.capacity then
          .returned
            { m with chunks :=
                m.chunks.set k { c with new_object_pointer := c.new_object_pointer + object_size } }
            c.new_object_pointer
        else .stopped .null_dereference := by
  have hinv := reachable_at_most_one_chunk ndebug m h
  refine ⟨hinv, ?_⟩
  intro heap k c fuel object_size hheap hhead hc hsize
  obtain ⟨heap1, hheap1, hcase⟩ := hinv
  rw [hheap] at hheap1
  cases hheap1
  rcases hcase with ⟨hnone, _⟩ | ⟨k1, c1, hhead1, hcur1, hc1, hnext1⟩
  · rw [hhead] at hnone
    cases hnone
  · rw [hhead] at hhead1
    cases hhead1
    rw [hc] at hc1
    cases hc1
    exact push_populated ndebug fuel m heap k c object_size hheap hhead hcur1 hc hnext1 hsize

/-- C20 (amended), at the arena `arena_one_chunk`, reached by setup and one
call of size 1: a call of size 5 is served at offset 1 of the chunk and a call
of size 1048576 reads the unset successor. -/
theorem reachable_single_chunk_witness :
    Reachable false arena_one_chunk ∧
    at_most_one_chunk arena_one_chunk ∧
    con_arena_push_ false 1 arena_one_chunk 5 =
      .returned
        ⟨some ⟨1048576, some 0, some 0⟩, [⟨none, 1048576, 65536, 65542⟩],
         [8192, 4194304], [], false⟩ 65537 ∧
    con_arena_push_ false 1 arena_one_chunk 1048576 = .stopped .null_dereference :=
  have hr : Reachable false arena_one_chunk :=
    Reachable.push 1 (arena_fresh 0) arena_one_chunk 1 65536
      (Reachable.setup false ⟨some ⟨0, none, none⟩, [], sys_granting, [], false⟩ 0 (by simp))
      rfl
  ⟨hr, (reachable_single_chunk false arena_one_chunk hr).1,
   (reachable_single_chunk false arena_one_chunk hr).2 ⟨1048576, some 0, some 0⟩ 0
     ⟨none, 1048576, 65536, 65537⟩ 0 5 rfl rfl rfl (by decide),
   (reachable_single_chunk false arena_one_chunk hr).2 ⟨1048576, some 0, some 0⟩ 0
     ⟨none, 1048576, 65536, 65537⟩ 0 1048576 rfl rfl rfl (by decide)⟩

end Convenient
